import Mathlib

/-!
Shallow embedding of the agent-orchestration core of the
`function-gemma-agent` repository: the output parser and JSON repair
(`app/infrastructure/ml/inference.py`), the tool registry
(`app/infrastructure/tools/registry.py`), the ReAct loop controller
(`app/inference/engine.py`) and the single-shot request orchestrator
(`app/domain/agent.py`).  Python strings are modelled as `List Char`,
`json.loads` as a recursive-descent parser over a JSON fragment
(strings with the common escapes, decimal integers, booleans, null,
objects and arrays; floats and unicode escapes are outside the modelled
fragment), and the Prometheus failure sink `record_reasoning_failure`
as an accumulated list of emitted signals.  All recursion is structural
(fuel-based where the source loops on strings), so every definition
evaluates by kernel reduction.
-/

namespace FG

/-- Python strings are modelled as lists of characters. -/
abbrev Str := List Char

/-- Whitespace as recognised by Python `str.strip` and the `\s` regex
class, restricted to ASCII. -/
def isWs (c : Char) : Bool :=
  c = ' ' || c = '\t' || c = '\n' || c = '\r' || c = '\x0b' || c = '\x0c'

/-- Word characters of the `\w` regex class (ASCII). -/
def wordChar (c : Char) : Bool :=
  c.isAlpha || c.isDigit || c = '_'

/-- Tests whether the pattern occurs at the head of the string. -/
def leadsWith : Str → Str → Bool
  | [], _ => true
  | _ :: _, [] => false
  | p :: ps, c :: cs => p = c && leadsWith ps cs

/-- Python substring containment `pat in s`. -/
def hasSub : Str → Str → Bool
  | [], pat => leadsWith pat []
  | c :: cs, pat => leadsWith pat (c :: cs) || hasSub cs pat

/-- Worker for Python `str.split(sep)`: scans left to right, cutting at
each non-overlapping occurrence of `sep`.  The fuel is at least the
length of the remaining string plus one, so the fuel-exhaustion branch
is never taken at the call sites below. -/
def splitOnAux (sep : Str) : Nat → Str → Str → List Str
  | 0, s, acc => [acc.reverse ++ s]
  | fuel + 1, s, acc =>
    if leadsWith sep s && !sep.isEmpty then
      acc.reverse :: splitOnAux sep fuel (s.drop sep.length) []
    else
      match s with
      | [] => [acc.reverse]
      | c :: cs => splitOnAux sep fuel cs (c :: acc)

/-- Python `s.split(sep)` for a non-empty separator. -/
def pySplit (s sep : Str) : List Str :=
  splitOnAux sep (s.length + 1) s []

/-- Worker for Python `str.replace(sub, repl)` (replace all
non-overlapping occurrences, scanning left to right). -/
def replaceAll (sub repl : Str) : Nat → Str → Str
  | 0, s => s
  | fuel + 1, s =>
    if leadsWith sub s && !sub.isEmpty then
      repl ++ replaceAll sub repl fuel (s.drop sub.length)
    else
      match s with
      | [] => []
      | c :: cs => c :: replaceAll sub repl fuel cs

/-- Python `s.replace(sub, repl)` for a non-empty `sub`. -/
def pyReplace (s sub repl : Str) : Str :=
  replaceAll sub repl (s.length + 1) s

/-- Worker for Python `s.split(sep, 1)`: returns the text before and
after the first occurrence of `sep`, or `none` when `sep` is absent. -/
def splitOnceAux (sep : Str) : Nat → Str → Str → Option (Str × Str)
  | 0, _, _ => none
  | fuel + 1, s, acc =>
    if leadsWith sep s then some (acc.reverse, s.drop sep.length)
    else
      match s with
      | [] => none
      | c :: cs => splitOnceAux sep fuel cs (c :: acc)

/-- First occurrence split, Python `s.split(sep, 1)` when it yields two
parts. -/
def splitOnceAt (s sep : Str) : Option (Str × Str) :=
  splitOnceAux sep (s.length + 1) s []

/-- Python `str.strip()`. -/
def pyStrip (s : Str) : Str :=
  ((s.dropWhile isWs).reverse.dropWhile isWs).reverse

/-- Python `str.lower()` (ASCII). -/
def pyLower (s : Str) : Str := s.map Char.toLower

/-- String-level wrapper of `hasSub`. -/
def containsS (s sub : String) : Bool := hasSub s.data sub.data

/-- String-level wrapper of `pyLower`. -/
def pyLowerS (s : String) : String := String.mk (pyLower s.data)

/-- String-level wrapper of `pyStrip`. -/
def stripS (s : String) : String := String.mk (pyStrip s.data)

/-! ## JSON values and a model of `json.loads` -/

/-- JSON values as produced by `json.loads` on the modelled fragment.
Objects carry their fields in insertion order with unique keys, the way
a Python `dict` is built. -/
inductive JVal where
  | jstr : String → JVal
  | jnum : Int → JVal
  | jbool : Bool → JVal
  | jnull : JVal
  | jobj : List (String × JVal) → JVal
  | jarr : List JVal → JVal

/-- Python `dict` insertion: an existing key keeps its position and gets
the new value, a new key is appended at the end. -/
def upsert (k : String) (v : JVal) : List (String × JVal) → List (String × JVal)
  | [] => [(k, v)]
  | (k0, v0) :: rest => if k0 = k then (k, v) :: rest else (k0, v0) :: upsert k v rest

/-- Skips leading JSON whitespace. -/
def skipWs : Str → Str
  | [] => []
  | c :: cs => if isWs c then skipWs cs else c :: cs

/-- Decodes a JSON string escape character. -/
def escChar (c : Char) : Option Char :=
  if c = '"' then some '"'
  else if c = '\\' then some '\\'
  else if c = '/' then some '/'
  else if c = 'n' then some '\n'
  else if c = 't' then some '\t'
  else if c = 'r' then some '\r'
  else if c = 'b' then some '\x08'
  else if c = 'f' then some '\x0c'
  else none

/-- Parses the body of a JSON string after the opening quote, returning
the decoded string and the rest of the input. -/
def parseStrBody : Nat → Str → Str → Option (String × Str)
  | 0, _, _ => none
  | _ + 1, _, [] => none
  | fuel + 1, acc, c :: rest =>
    if c = '"' then some (String.mk acc.reverse, rest)
    else if c = '\\' then
      match rest with
      | [] => none
      | e :: rest2 =>
        match escChar e with
        | some d => parseStrBody fuel (d :: acc) rest2
        | none => none
    else parseStrBody fuel (c :: acc) rest

/-- Accumulates a run of decimal digits into a natural number. -/
def digitsToNat : Str → Nat → Nat
  | [], acc => acc
  | c :: cs, acc => digitsToNat cs (acc * 10 + (c.toNat - '0'.toNat))

/-- Parses a JSON integer (sign and digit run, rejecting leading zeros
and anything that would continue as a float). -/
def parseNum (s : Str) : Option (Int × Str) :=
  let neg : Bool := match s with | '-' :: _ => true | _ => false
  let s1 : Str := match s with | '-' :: rest => rest | _ => s
  let ds := s1.takeWhile Char.isDigit
  let rest := s1.dropWhile Char.isDigit
  if ds.isEmpty then none
  else if 1 < ds.length && ds.headD ' ' = '0' then none
  else
    match rest with
    | '.' :: _ => none
    | 'e' :: _ => none
    | 'E' :: _ => none
    | _ =>
      let n : Int := Int.ofNat (digitsToNat ds 0)
      some ((if neg then -n else n), rest)

/-- Parses the members of a JSON object after the opening brace, given a
parser for values.  Builds the field list with `upsert`, matching how
`json.loads` feeds a Python `dict`. -/
def parseFields (pv : Str → Option (JVal × Str)) :
    Nat → List (String × JVal) → Str → Option (List (String × JVal) × Str)
  | 0, _, _ => none
  | fuel + 1, acc, s =>
    match skipWs s with
    | '"' :: rest =>
      match parseStrBody (rest.length + 1) [] rest with
      | none => none
      | some (k, r1) =>
        match skipWs r1 with
        | ':' :: r2 =>
          match pv r2 with
          | none => none
          | some (v, r3) =>
            match skipWs r3 with
            | ',' :: r4 => parseFields pv fuel (upsert k v acc) r4
            | '}' :: r4 => some (upsert k v acc, r4)
            | _ => none
        | _ => none
    | _ => none

/-- Parses the elements of a JSON array after the opening bracket, given
a parser for values. -/
def parseElems (pv : Str → Option (JVal × Str)) :
    Nat → List JVal → Str → Option (List JVal × Str)
  | 0, _, _ => none
  | fuel + 1, acc, s =>
    match pv s with
    | none => none
    | some (v, r1) =>
      match skipWs r1 with
      | ',' :: r2 => parseElems pv fuel (acc ++ [v]) r2
      | ']' :: r2 => some (acc ++ [v], r2)
      | _ => none

/-- Parses one JSON value, returning it with the unconsumed rest. -/
def parseVal : Nat → Str → Option (JVal × Str)
  | 0, _ => none
  | fuel + 1, s =>
    match skipWs s with
    | [] => none
    | '"' :: rest =>
      (parseStrBody (rest.length + 1) [] rest).map (fun p => (JVal.jstr p.1, p.2))
    | '{' :: rest =>
      match skipWs rest with
      | '}' :: r2 => some (JVal.jobj [], r2)
      | _ =>
        (parseFields (parseVal fuel) (rest.length + 1) [] rest).map
          (fun p => (JVal.jobj p.1, p.2))
    | '[' :: rest =>
      match skipWs rest with
      | ']' :: r2 => some (JVal.jarr [], r2)
      | _ =>
        (parseElems (parseVal fuel) (rest.length + 1) [] rest).map
          (fun p => (JVal.jarr p.1, p.2))
    | 't' :: rest =>
      if leadsWith [ 'r', 'u', 'e' ] rest then some (JVal.jbool true, rest.drop 3) else none
    | 'f' :: rest =>
      if leadsWith [ 'a', 'l', 's', 'e' ] rest then some (JVal.jbool false, rest.drop 4) else none
    | 'n' :: rest =>
      if leadsWith [ 'u', 'l', 'l' ] rest then some (JVal.jnull, rest.drop 3) else none
    | c :: rest =>
      if c = '-' || c.isDigit then
        (parseNum (c :: rest)).map (fun p => (JVal.jnum p.1, p.2))
      else none

/-- Model of Python `json.loads` on the modelled fragment: parses one
value and requires only whitespace to remain. -/
def pyJsonLoads (s : Str) : Option JVal :=
  match parseVal (s.length + 1) s with
  | some (v, rest) => if (skipWs rest).isEmpty then some v else none
  | none => none

/-! ## `GemmaService._repair_json` (app/infrastructure/ml/inference.py)

The repair is a pipeline of four textual rules: drop `<escape>` artifact
tokens, quote bare keys (`re.sub r'(\w+):' → '"\1":'`), quote bare
scalar values before a comma or closing brace
(`re.sub r':\s*([a-zA-Z_0-9]+)\s*([,}])' → ': "\1"\2'`), and quote a
bare trailing scalar (`re.sub r':\s*([a-zA-Z_0-9]+)\s*$' → ': "\1"'`).
Each regex substitution is embedded as the equivalent left-to-right
scanner (the patterns allow no other match than the maximal-run one, so
the scanners implement exactly the `re.sub` semantics). -/

/-- The `<escape>` artifact token removed by repair rule 1. -/
def escapeTok : Str := '<' :: 'e' :: 's' :: 'c' :: 'a' :: 'p' :: 'e' :: '>' :: []

/-- Repair rule 2: quote bare identifier keys immediately followed by a
colon. -/
def quoteKeys : Nat → Str → Str
  | 0, s => s
  | _ + 1, [] => []
  | fuel + 1, c :: cs =>
    if wordChar c then
      let run := (c :: cs).takeWhile wordChar
      let rest := (c :: cs).dropWhile wordChar
      match rest with
      | ':' :: rs => '"' :: (run ++ '"' :: ':' :: quoteKeys fuel rs)
      | _ => run ++ quoteKeys fuel rest
    else c :: quoteKeys fuel cs

/-- Repair rule 3: quote a bare alphanumeric value standing between a
colon and a comma or closing brace (whitespace around the value is
normalised to a single space after the colon, as the replacement
template does). -/
def quoteVals : Nat → Str → Str
  | 0, s => s
  | _ + 1, [] => []
  | fuel + 1, c :: cs =>
    if c = ':' then
      let r1 := cs.dropWhile isWs
      let run := r1.takeWhile wordChar
      let r2 := r1.dropWhile wordChar
      let r3 := r2.dropWhile isWs
      match r3 with
      | d :: rs =>
        if !run.isEmpty && (d = ',' || d = '}') then
          ':' :: ' ' :: '"' :: (run ++ '"' :: d :: quoteVals fuel rs)
        else ':' :: quoteVals fuel cs
      | [] => ':' :: quoteVals fuel cs
    else c :: quoteVals fuel cs

/-- Repair rule 4: quote a bare trailing alphanumeric value at
end-of-string (trailing whitespace is dropped by the replacement). -/
def quoteLast : Nat → Str → Str
  | 0, s => s
  | _ + 1, [] => []
  | fuel + 1, c :: cs =>
    if c = ':' then
      let r1 := cs.dropWhile isWs
      let run := r1.takeWhile wordChar
      let r2 := r1.dropWhile wordChar
      if !run.isEmpty && r2.all isWs then
        ':' :: ' ' :: '"' :: (run ++ ['"'])
      else ':' :: quoteLast fuel cs
    else c :: quoteLast fuel cs

/-- `GemmaService._repair_json`: the four textual repair rules in
order. -/
def repair_json (s : Str) : Str :=
  let s1 := pyReplace s escapeTok []
  let s2 := quoteKeys (s1.length + 1) s1
  let s3 := quoteVals (s2.length + 1) s2
  quoteLast (s3.length + 1) s3

/-! ## `GemmaService.parse_output` (app/infrastructure/ml/inference.py) -/

/-- Drift signals passed to `record_reasoning_failure`. -/
inductive Sig where
  | invalidJson
  | unknownTool
  | infiniteLoop
deriving DecidableEq

/-- Counts the occurrences of one signal kind in an emission list. -/
def countSig (k : Sig) (l : List Sig) : Nat :=
  (l.filter (fun s => s = k)).length

/-- The start sentinel `<start_function_call>`. -/
def startTok : Str := "<start_function_call>".data

/-- The end sentinel `<end_function_call>`. -/
def endTok : Str := "<end_function_call>".data

/-- The label token `call:` stripped from the call segment. -/
def callTok : Str := "call:".data

/-- The call segment extracted by
`generated_text.split("<start_function_call>")[1].split("<end_function_call>")[0]`. -/
def callSegment (text : Str) : Str :=
  let seg1 := (pySplit text startTok).getD 1 []
  (pySplit seg1 endTok).getD 0 []

/-- `clean_call = call_segment.replace("call:", "")`. -/
def cleanCallOf (text : Str) : Str :=
  pyReplace (callSegment text) callTok []

/-- The opening-brace separator of `clean_call.split("{", 1)`. -/
def braceTok : Str := ['\x7b']

/-- `GemmaService.parse_output`: extracts a candidate tool call from raw
generator text.  Returns the `(func_name, func_args)` pair together with
the list of signals sent to `record_reasoning_failure` during the call,
in emission order.  The strict-parse failure emits `invalid_json`
immediately, before the repair retry; an unrecoverable repair failure
raises out of the inner `try` and the outer handler emits a second
`invalid_json` and returns `(None, None)`. -/
def parse_output (text : Str) (tools : List String) :
    (Option String × Option JVal) × List Sig :=
  if hasSub text startTok then
    let cleanCall := cleanCallOf text
    if hasSub cleanCall braceTok then
      match splitOnceAt cleanCall braceTok with
      | some (funcName, rest) =>
        let argsStr : Str := '\x7b' :: rest
        let name := String.mk (pyStrip funcName)
        match pyJsonLoads argsStr with
        | some v =>
          if tools.contains name then ((some name, some v), [])
          else ((some name, some v), [Sig.unknownTool])
        | none =>
          match pyJsonLoads (repair_json argsStr) with
          | some v => ((some name, some v), [Sig.invalidJson])
          | none => ((none, none), [Sig.invalidJson, Sig.invalidJson])
      | none => ((none, none), [])
    else ((some (String.mk (pyStrip cleanCall)), some (JVal.jobj [])), [])
  else ((none, none), [])

/-! ## `ToolRegistry` (app/infrastructure/tools/registry.py) -/

/-- A registered tool: its unique name and its `execute(**kwargs)`
implementation, which either returns a result mapping or raises an
exception carrying a message. -/
structure Tool where
  name : String
  run : List (String × JVal) → Except String (List (String × JVal))

/-- The registry dictionary `self._tools`, keyed by tool name in
registration order. -/
abbrev Registry := List (String × Tool)

/-- `ToolRegistry.register`: `self._tools[tool.name] = tool`. -/
def registerTool (reg : Registry) (t : Tool) : Registry :=
  match reg with
  | [] => [(t.name, t)]
  | (k, v) :: rest =>
    if k = t.name then (t.name, t) :: rest else (k, v) :: registerTool rest t

/-- `ToolRegistry.get_tool`: `self._tools.get(name)`. -/
def get_tool (reg : Registry) (name : String) : Option Tool :=
  match reg with
  | [] => none
  | (k, v) :: rest => if k = name then some v else get_tool rest name

/-- The two `ToolExecutionError` raise sites of `execute_tool`,
distinguished by the message each constructs: the lookup miss and the
wrapper around an exception from the tool implementation. -/
inductive ToolError where
  | notFound : String → ToolError
  | execFailure : String → ToolError
deriving DecidableEq

/-- `ToolRegistry.execute_tool`: a missing name raises the not-found
error before the `try` block; otherwise the tool implementation is
invoked once with the arguments, and any exception it raises is wrapped
in a new message that carries the original one. -/
def execute_tool (reg : Registry) (name : String) (args : List (String × JVal)) :
    Except ToolError (List (String × JVal)) :=
  match get_tool reg name with
  | none =>
    Except.error (ToolError.notFound ("Tool \x27" ++ name ++ "\x27 not found in registry."))
  | some tool =>
    match tool.run args with
    | Except.ok r => Except.ok r
    | Except.error e =>
      Except.error (ToolError.execFailure ("Error executing \x27" ++ name ++ "\x27: " ++ e))

/-! ## `TracingEngine` ReAct loop (app/inference/engine.py) -/

/-- Joins strings with the Python `", "` separator. -/
def joinComma : List String → String
  | [] => ""
  | [s] => s
  | s :: rest => s ++ ", " ++ joinComma rest

/-- Python `str(value)` for values decoded by `json.loads`, used when
the observation text interpolates a tool result dictionary.  The fuel
bounds the nesting depth of the rendered value. -/
def pyReprJ : Nat → JVal → String
  | _, JVal.jstr s => "\x27" ++ s ++ "\x27"
  | _, JVal.jnum n => toString n
  | _, JVal.jbool b => if b then "True" else "False"
  | _, JVal.jnull => "None"
  | 0, JVal.jobj _ => ""
  | 0, JVal.jarr _ => ""
  | fuel + 1, JVal.jobj fs =>
    "\x7b" ++ joinComma (fs.map (fun kv => "\x27" ++ kv.1 ++ "\x27: " ++ pyReprJ fuel kv.2)) ++ "\x7d"
  | fuel + 1, JVal.jarr es =>
    "[" ++ joinComma (es.map (pyReprJ fuel)) ++ "]"

/-- Python `str` of a result dictionary as interpolated into an
observation f-string. -/
def pyReprObj (fs : List (String × JVal)) : String :=
  pyReprJ 1000 (JVal.jobj fs)

/-- The fixed, case-insensitive final-answer indicator set of
`TracingEngine._should_answer`. -/
def answer_indicators : List String :=
  ["final answer", "the answer is", "conclusion",
   "based on the information", "therefore", "in conclusion"]

/-- `TracingEngine._should_answer`: does the lowercased thought contain
any indicator? -/
def should_answer (thought : String) : Bool :=
  answer_indicators.any (fun ind => containsS (pyLowerS thought) ind)

/-- `TracingEngine._extract_answer`: when the lowercased thought
contains `"final answer:"`, split the original (case-sensitive!) thought
at that marker and return the stripped last part when the split found
the marker, else the whole thought. -/
def extract_answer (thought : String) : String :=
  if containsS (pyLowerS thought) "final answer:" then
    let parts := pySplit thought.data "final answer:".data
    if 1 < parts.length then stripS (String.mk (parts.getLastD [])) else thought
  else thought

/-- `TracingEngine._update_context`: the fixed context-growth
template. -/
def update_context (old thought obs : String) : String :=
  "Previous context: " ++ old ++ "\n\nMy thought: " ++ thought ++
    "\n\nObservation: " ++ obs ++
    "\n\nNow, based on this information, what should I do next?"

/-- `TracingEngine._generate_fallback_response`: the deterministic hedge
template around the accumulated context (the trace argument is unused by
the source). -/
def generate_fallback_response (context : String) : String :=
  "I wasn\x27t able to complete your request within the allowed steps. \nHere\x27s what I found: " ++
    context ++
    "\n\nIf you need more specific information, please let me know and I\x27ll try a different approach."

/-- The loop environment: the generator (a function of the step index
and the running context, standing for `gemma_service.generate` applied
to the prompt built from them), the available tool names drawn from the
tools schema, and the behaviour of `registry.execute_tool` as seen
through the loop (an exception becomes its message string). -/
structure LoopEnv where
  gen : Nat → String → String
  tools : List String
  execTool : String → JVal → Except String (List (String × JVal))

/-- Outcome of `TracingEngine._execute_action` on one thought: either
the answer branch (with the response text) or the tool branch (with the
observation text).  `sigs` lists the signals emitted through
`record_reasoning_failure` during the action, and `execs` the tool
invocations actually performed. -/
structure ActionOut where
  isAnswer : Bool
  response : String
  observation : String
  sigs : List Sig
  execs : List (String × JVal)

/-- `TracingEngine._execute_action`: answer when the thought carries an
indicator; otherwise parse for a tool call and, when `func_name` is
truthy (a non-empty name), execute it — success and failure both
continue with an observation; a falsy parse result makes the thought
itself the final answer. -/
def execute_action (env : LoopEnv) (thought : String) : ActionOut :=
  if should_answer thought then
    { isAnswer := true, response := extract_answer thought, observation := "",
      sigs := [], execs := [] }
  else
    match parse_output thought.data env.tools with
    | ((some name, some args), sigs) =>
      if name = "" then
        { isAnswer := true, response := thought, observation := "",
          sigs := sigs, execs := [] }
      else
        match env.execTool name args with
        | Except.ok res =>
          { isAnswer := false, response := "",
            observation := "Tool " ++ name ++ " returned: " ++ pyReprObj res,
            sigs := sigs, execs := [(name, args)] }
        | Except.error e =>
          { isAnswer := false, response := "",
            observation := "Tool " ++ name ++ " failed with error: " ++ e,
            sigs := sigs, execs := [(name, args)] }
    | ((_, _), sigs) =>
      { isAnswer := true, response := thought, observation := "",
        sigs := sigs, execs := [] }

/-- Result of `TracingEngine.react_reasoning_loop`: the response, the
1-based count of THINK iterations executed, the signals emitted, the
tool invocations performed, the final accumulated context and the
completion flag. -/
structure LoopOut where
  response : String
  steps_taken : Nat
  sigs : List Sig
  execs : List (String × JVal)
  finalCtx : String
  completed : Bool

/-- One pass structure of the `for step in range(self.max_steps)` loop:
`rem` is the number of iterations left, `step` the index of the current
iteration.  An answer action breaks with the response; a tool action
updates the context and continues (the source's trailing
`should_continue is False` break is unreachable there because both tool
branches return `should_continue = True`); exhaustion falls through to
the fallback response. -/
def react_loop_aux (env : LoopEnv) :
    Nat → Nat → String → List Sig → List (String × JVal) → LoopOut
  | 0, step, ctx, sigs, execs =>
    { response := generate_fallback_response ctx, steps_taken := step,
      sigs := sigs, execs := execs, finalCtx := ctx, completed := false }
  | rem + 1, step, ctx, sigs, execs =>
    let thought := env.gen step ctx
    let act := execute_action env thought
    if act.isAnswer then
      { response := act.response, steps_taken := step + 1,
        sigs := sigs ++ act.sigs, execs := execs ++ act.execs,
        finalCtx := ctx, completed := true }
    else
      react_loop_aux env rem (step + 1) (update_context ctx thought act.observation)
        (sigs ++ act.sigs) (execs ++ act.execs)

/-- `TracingEngine.react_reasoning_loop`.  With `max_steps = 0` the
source never binds the loop variable and `steps_taken = step + 1`
raises `NameError`, modelled as `none`. -/
def react_reasoning_loop (env : LoopEnv) (max_steps : Nat) (initial_query : String) :
    Option LoopOut :=
  if max_steps = 0 then none
  else some (react_loop_aux env max_steps 0 initial_query [] [])

/-! ## `AgentService.process_request` drift check (app/domain/agent.py) -/

/-- Insertion of a field into a key-sorted list, for
`json.dumps(..., sort_keys=True)`. -/
def insertSorted (kv : String × JVal) : List (String × JVal) → List (String × JVal)
  | [] => [kv]
  | kv0 :: rest =>
    if kv.1 < kv0.1 then kv :: kv0 :: rest else kv0 :: insertSorted kv rest

/-- Key-sorting of object fields, for `json.dumps(..., sort_keys=True)`. -/
def sortFields : List (String × JVal) → List (String × JVal)
  | [] => []
  | kv :: rest => insertSorted kv (sortFields rest)

/-- `json.dumps` with `sort_keys=True` on the modelled fragment (string
escaping inside keys and values is not re-encoded; only used to build
tool-call signatures, whose exact text no claim depends on). -/
def jsonDumps : Nat → JVal → String
  | _, JVal.jstr s => "\"" ++ s ++ "\""
  | _, JVal.jnum n => toString n
  | _, JVal.jbool b => if b then "true" else "false"
  | _, JVal.jnull => "null"
  | 0, JVal.jobj _ => ""
  | 0, JVal.jarr _ => ""
  | fuel + 1, JVal.jobj fs =>
    "\x7b" ++ joinComma ((sortFields fs).map (fun kv => "\"" ++ kv.1 ++ "\": " ++ jsonDumps fuel kv.2)) ++ "\x7d"
  | fuel + 1, JVal.jarr es =>
    "[" ++ joinComma (es.map (jsonDumps fuel)) ++ "]"

/-- The canonical tool-call signature
`f"{func_name}:{json.dumps(func_args, sort_keys=True)}"`. -/
def tool_signature (name : String) (args : JVal) : String :=
  name ++ ":" ++ jsonDumps 1000 args

/-- Counts how many times a signature occurs in the history list
(`tool_call_history.count(tool_signature)`). -/
def countSignature (sig : String) (history : List String) : Nat :=
  (history.filter (fun h => h = sig)).length

/-- The drift-relevant skeleton of `AgentService.process_request`: the
method creates a fresh `tool_call_history = []`, performs a single
generation and a single parse, and on a truthy `func_name` appends one
signature to the history, emits `infinite_loop` when that signature now
counts at least 3 occurrences, and executes the tool once.  Returns the
signals emitted and the tool invocations performed. -/
def process_request_drift (generated : Str) (tools : List String) :
    List Sig × List (String × JVal) :=
  match parse_output generated tools with
  | ((some name, some args), psigs) =>
    if name = "" then (psigs, [])
    else
      let history : List String := [] ++ [tool_signature name args]
      let loopSigs : List Sig :=
        if 3 ≤ countSignature (tool_signature name args) history then [Sig.infiniteLoop] else []
      (psigs ++ loopSigs, [(name, args)])
  | ((_, _), psigs) => (psigs, [])

/-! ## Supporting lemmas -/

/-- A string begins with itself. -/
theorem leadsWith_refl (s : Str) : leadsWith s s = true := by
  induction s with
  | nil => rfl
  | cons c cs ih => simp [leadsWith, ih]

/-- A string begins with itself followed by anything. -/
theorem leadsWith_append (p r : Str) : leadsWith p (p ++ r) = true := by
  induction p with
  | nil => rfl
  | cons c cs ih => simp [leadsWith, ih]

/-- A nonempty pattern does not begin the empty string. -/
theorem leadsWith_nil (p : Str) (h : p ≠ []) : leadsWith p [] = false := by
  cases p with
  | nil => exact absurd rfl h
  | cons c cs => rfl

/-- A string contains every one of its suffixes. -/
theorem hasSub_suffix (pre s : Str) : hasSub (pre ++ s) s = true := by
  induction pre with
  | nil =>
    cases s with
    | nil => rfl
    | cons c cs => simp [hasSub, leadsWith_refl]
  | cons c cs ih => simp [hasSub, ih]

/-- Containment at the head gives containment. -/
theorem leadsWith_hasSub (s pat : Str) (h : leadsWith pat s = true) :
    hasSub s pat = true := by
  cases s with
  | nil =>
    cases pat with
    | nil => rfl
    | cons p ps => simp [leadsWith] at h
  | cons c cs => simp [hasSub, h]

/-- When the separator does not occur, `splitOnAux` yields the single
remaining part. -/
theorem splitOnAux_no_occur (sep : Str) (hsep : sep ≠ []) :
    ∀ (fuel : Nat) (s acc : Str), s.length < fuel → hasSub s sep = false →
      splitOnAux sep fuel s acc = [acc.reverse ++ s] := by
  intro fuel
  induction fuel with
  | zero => intro s acc h; omega
  | succ n ih =>
    intro s acc hlen hsub
    cases s with
    | nil =>
      simp [splitOnAux, leadsWith_nil sep hsep]
    | cons c cs =>
      have hlead : leadsWith sep (c :: cs) = false := by
        cases hl : leadsWith sep (c :: cs) with
        | false => rfl
        | true => simp [hasSub, hl] at hsub
      have hrest : hasSub cs sep = false := by
        cases hr : hasSub cs sep with
        | false => rfl
        | true => simp [hasSub, hr] at hsub
      simp only [splitOnAux, hlead, Bool.false_and, Bool.false_eq_true, if_neg,
        not_false_iff]
      have := ih cs (c :: acc) (by simpa using Nat.lt_of_succ_lt_succ hlen) hrest
      simpa using this

/-- `pySplit` of a string not containing the (nonempty) separator is the
one-element list. -/
theorem pySplit_no_occur (s sep : Str) (hsep : sep ≠ []) (h : hasSub s sep = false) :
    pySplit s sep = [s] := by
  have := splitOnAux_no_occur sep hsep (s.length + 1) s [] (Nat.lt_succ_self _) h
  simpa [pySplit] using this

/-- A successful `splitOnceAux` implies the separator occurs. -/
theorem splitOnceAux_some_hasSub (sep : Str) :
    ∀ (fuel : Nat) (s acc : Str) (p : Str × Str),
      splitOnceAux sep fuel s acc = some p → hasSub s sep = true := by
  intro fuel
  induction fuel with
  | zero => intro s acc p h; simp [splitOnceAux] at h
  | succ n ih =>
    intro s acc p h
    by_cases hl : leadsWith sep s = true
    · exact leadsWith_hasSub s sep hl
    · have hl2 : leadsWith sep s = false := by
        cases hx : leadsWith sep s with
        | false => rfl
        | true => exact absurd hx hl
      cases s with
      | nil => simp [splitOnceAux, hl2] at h
      | cons c cs =>
        simp only [splitOnceAux, hl2, Bool.false_eq_true, if_neg, not_false_iff] at h
        have := ih cs (c :: acc) p h
        simp [hasSub, this]

/-- A successful first-occurrence split implies containment. -/
theorem splitOnceAt_some_hasSub (s sep : Str) (p : Str × Str)
    (h : splitOnceAt s sep = some p) : hasSub s sep = true :=
  splitOnceAux_some_hasSub sep (s.length + 1) s [] p h

/-- Counting distributes over append. -/
theorem countSig_append (k : Sig) (a b : List Sig) :
    countSig k (a ++ b) = countSig k a + countSig k b := by
  simp [countSig, List.filter_append]

/-- A list whose members differ from a signal contains zero of it. -/
theorem countSig_eq_zero (k : Sig) (l : List Sig) (h : ∀ x ∈ l, x ≠ k) :
    countSig k l = 0 := by
  simp only [countSig, List.length_eq_zero]
  exact List.filter_eq_nil_iff.mpr (by simpa using h)

/-! ## Claim theorems -/

/-- C7: `execute_tool` fails with the not-found error exactly when the
name is unregistered; for a registered tool it performs a single
invocation of the implementation on the given arguments, passing a
success through unchanged and wrapping an implementation exception in a
`ToolExecutionError` whose message carries the original message (as a
substring); the registry itself performs no retries, the result being
exactly that of the one invocation. -/
theorem C7_execute_tool (reg : Registry) (name : String) (args : List (String × JVal)) :
    (get_tool reg name = none →
      execute_tool reg name args =
        Except.error (ToolError.notFound ("Tool \x27" ++ name ++ "\x27 not found in registry."))) ∧
    (∀ t, get_tool reg name = some t →
      ((∀ r, t.run args = Except.ok r → execute_tool reg name args = Except.ok r) ∧
       (∀ e, t.run args = Except.error e →
         execute_tool reg name args =
           Except.error (ToolError.execFailure ("Error executing \x27" ++ name ++ "\x27: " ++ e)) ∧
         containsS ("Error executing \x27" ++ name ++ "\x27: " ++ e) e = true))) := by
  refine ⟨fun h => ?_, fun t ht => ⟨fun r hr => ?_, fun e he => ⟨?_, ?_⟩⟩⟩
  · simp [execute_tool, h]
  · simp [execute_tool, ht, hr]
  · simp [execute_tool, ht, he]
  · show hasSub (("Error executing \x27" ++ name ++ "\x27: " ++ e).data) e.data = true
    rw [String.data_append]
    exact hasSub_suffix _ _

/-- A sample tool whose implementation always raises, used to witness
the failure-wrapping leg of C7. -/
def boomTool : Tool :=
  { name := "boom", run := fun _ => Except.error "kaput" }

/-- Witness for C7: on a registry holding `boomTool`, executing `boom`
wraps the original message `kaput`. -/
theorem C7_execute_tool_witness :
    execute_tool [("boom", boomTool)] "boom" [] =
      Except.error (ToolError.execFailure ("Error executing \x27boom\x27: " ++ "kaput")) ∧
    containsS ("Error executing \x27boom\x27: " ++ "kaput") "kaput" = true :=
  ((C7_execute_tool [("boom", boomTool)] "boom" []).2 boomTool rfl).2 "kaput" rfl

/-- C8: raw generator text lacking the start sentinel
`<start_function_call>` parses to `(None, None)` with no signal emitted
— it is left to stand as a plain natural-language answer. -/
theorem C8_no_sentinel (text : Str) (tools : List String)
    (h : hasSub text startTok = false) :
    parse_output text tools = ((none, none), []) := by
  simp [parse_output, h]

/-- Witness for C8 at the plain text the repository's own unit test
uses. -/
theorem C8_no_sentinel_witness :
    hasSub "Just a normal conversation.".data startTok = false ∧
    parse_output "Just a normal conversation.".data ["get_cluster_status"] = ((none, none), []) :=
  ⟨by decide, C8_no_sentinel "Just a normal conversation.".data ["get_cluster_status"] (by decide)⟩

/-- Splitting a string that begins with the (nonempty) separator and
contains no further occurrence yields the empty part and the rest. -/
theorem pySplit_cons_lead (sep rest : Str) (hsep : sep ≠ []) (h : hasSub rest sep = false) :
    pySplit (sep ++ rest) sep = [[], rest] := by
  unfold pySplit
  cases sep with
  | nil => exact absurd rfl hsep
  | cons c cs =>
    have hempty : ((c :: cs : Str).isEmpty) = false := rfl
    simp only [List.cons_append, List.length_cons, List.length_append]
    rw [splitOnAux]
    rw [show leadsWith (c :: cs) (c :: (cs ++ rest)) = true from leadsWith_append (c :: cs) rest,
      hempty]
    simp only [Bool.not_false, Bool.true_and, if_pos, List.reverse_nil]
    rw [show (c :: (cs ++ rest)).drop (c :: cs).length = rest from List.drop_left (c :: cs) rest]
    rw [splitOnAux_no_occur (c :: cs) hsep _ rest []
      (by simp [Nat.lt_succ_iff, Nat.le_add_left]) h]
    rfl

/-- The call segment of a text that begins with the start sentinel and
whose remainder contains neither sentinel is that whole remainder. -/
theorem callSegment_of_lead (seg : Str) (h1 : hasSub seg startTok = false)
    (h2 : hasSub seg endTok = false) : callSegment (startTok ++ seg) = seg := by
  unfold callSegment
  rw [pySplit_cons_lead startTok seg (by decide) h1]
  show (pySplit ([[], seg].getD 1 []) endTok).getD 0 [] = seg
  rw [show ([[], seg] : List Str).getD 1 [] = seg from rfl]
  rw [pySplit_no_occur seg endTok (by decide) h2]
  rfl

/-- A raw text in which the start sentinel occurs twice (and the end
sentinel never), exhibiting that the call segment stops at the second
start sentinel instead of covering the whole remainder. -/
def doubleStartText : Str := startTok ++ "a".data ++ startTok ++ "b".data

/-- C10 counterexample: on `doubleStartText` — which contains the start
sentinel and no end sentinel — the entire remainder after the (first)
start sentinel is `a<start_function_call>b`, yet the call segment the
parser uses is just `a`: the claim's "entire remainder" description
fails when the start sentinel repeats. -/
theorem C10_counterexample :
    hasSub doubleStartText startTok = true ∧
    hasSub doubleStartText endTok = false ∧
    splitOnceAt doubleStartText startTok = some ([], "a".data ++ startTok ++ "b".data) ∧
    callSegment doubleStartText = "a".data ∧
    "a".data ≠ "a".data ++ startTok ++ "b".data :=
  ⟨by decide, by decide, by decide, by decide, by decide⟩

/-- C10 (amended): when the raw text consists of the start sentinel
followed by a remainder in which neither sentinel occurs again, the
whole remainder is the call segment — the end sentinel is not required —
and a tool call can still be parsed from such a text, as the concrete
end-sentinel-free call shows. -/
theorem C10_no_end_sentinel :
    (∀ seg : Str, hasSub seg startTok = false → hasSub seg endTok = false →
      callSegment (startTok ++ seg) = seg) ∧
    parse_output (startTok ++ "call:get_status\x7b\"id\": \"prod\"\x7d".data) ["get_status"] =
      ((some "get_status", some (JVal.jobj [("id", JVal.jstr "prod")])), []) :=
  ⟨fun seg h1 h2 => callSegment_of_lead seg h1 h2, rfl⟩

/-- Witness for C10: the universally quantified part applied to the
concrete end-sentinel-free remainder. -/
theorem C10_no_end_sentinel_witness :
    callSegment (startTok ++ "call:get_status\x7b\"id\": \"prod\"\x7d".data) =
      "call:get_status\x7b\"id\": \"prod\"\x7d".data :=
  C10_no_end_sentinel.1 "call:get_status\x7b\"id\": \"prod\"\x7d".data (by decide) (by decide)

/-! ## Repair identity on a guarded class of JSON texts (C3) -/

/-- No word character is immediately followed by a colon (so repair
rule 2 finds nothing to quote). -/
def noWordColon : Str → Bool
  | [] => true
  | [_] => true
  | c1 :: c2 :: rest => !(wordChar c1 && c2 = ':') && noWordColon (c2 :: rest)

/-- Every colon is immediately followed by a space and a double quote
(so repair rules 3 and 4 find no bare value after any colon). -/
def colonSpacedQuote : Str → Bool
  | [] => true
  | c :: cs =>
    if c = ':' then
      (match cs with
       | ' ' :: '"' :: _ => true
       | _ => false) && colonSpacedQuote cs
    else colonSpacedQuote cs

/-- `noWordColon` passes to the tail. -/
theorem noWordColon_tail (c : Char) (cs : Str) (h : noWordColon (c :: cs) = true) :
    noWordColon cs = true := by
  cases cs with
  | nil => rfl
  | cons c2 rest =>
    have h2 := h
    simp only [noWordColon, Bool.and_eq_true] at h2
    exact h2.2

/-- `noWordColon` passes to any `dropWhile` suffix. -/
theorem noWordColon_dropWhile (p : Char → Bool) :
    ∀ s : Str, noWordColon s = true → noWordColon (s.dropWhile p) = true := by
  intro s
  induction s with
  | nil => intro h; simpa using h
  | cons c cs ih =>
    intro h
    cases hp : p c with
    | true => simpa [List.dropWhile, hp] using ih (noWordColon_tail c cs h)
    | false => simpa [List.dropWhile, hp] using h

/-- Under `noWordColon`, the suffix after a word run never starts with a
colon. -/
theorem noWordColon_word_drop :
    ∀ (s : Str) (c : Char), noWordColon (c :: s) = true → wordChar c = true →
      ∀ rs : Str, (c :: s).dropWhile wordChar ≠ ':' :: rs := by
  intro s
  induction s with
  | nil =>
    intro c _ hw rs
    simp [List.dropWhile, hw]
  | cons c2 s2 ih =>
    intro c h hw rs
    have hpair : (!(wordChar c && c2 = ':')) = true := by
      have h2 := h
      simp only [noWordColon, Bool.and_eq_true] at h2
      exact h2.1
    have htail : noWordColon (c2 :: s2) = true := noWordColon_tail c (c2 :: s2) h
    cases hw2 : wordChar c2 with
    | true =>
      have := ih c2 htail hw2 rs
      simpa [List.dropWhile, hw, hw2] using this
    | false =>
      have hc2 : c2 ≠ ':' := by
        intro hcol
        rw [hcol, hw] at hpair
        exact absurd hpair (by decide)
      simp only [List.dropWhile, hw, hw2]
      intro hEq
      exact hc2 (by cases hEq ; rfl)

/-- Repair rule 2 leaves a `noWordColon` string unchanged. -/
theorem quoteKeys_id :
    ∀ (fuel : Nat) (s : Str), noWordColon s = true → quoteKeys fuel s = s := by
  intro fuel
  induction fuel with
  | zero => intro s _; rfl
  | succ n ih =>
    intro s h
    cases s with
    | nil => rfl
    | cons c cs =>
      by_cases hw : wordChar c = true
      · have hdrop := noWordColon_word_drop cs c h hw
        have hrest : noWordColon ((c :: cs).dropWhile wordChar) = true :=
          noWordColon_dropWhile wordChar (c :: cs) h
        have htd := List.takeWhile_append_dropWhile (p := wordChar) (l := c :: cs)
        simp only [quoteKeys, hw, if_pos]
        rw [ih _ hrest]
        exact htd
      · have hwF : wordChar c = false := by
          cases hx : wordChar c with
          | false => rfl
          | true => exact absurd hx hw
        simp only [quoteKeys, hwF, Bool.false_eq_true, if_neg, not_false_iff]
        rw [ih cs (noWordColon_tail c cs h)]

/-- `colonSpacedQuote` passes to the tail. -/
theorem colonSpacedQuote_tail (c : Char) (cs : Str)
    (h : colonSpacedQuote (c :: cs) = true) : colonSpacedQuote cs = true := by
  by_cases hc : c = ':'
  · subst hc
    have h2 := h
    simp only [colonSpacedQuote, if_pos, Bool.and_eq_true] at h2
    exact h2.2
  · simpa [colonSpacedQuote, hc] using h

/-- Under `colonSpacedQuote`, a colon is followed by a space and a
quote. -/
theorem colonSpacedQuote_head (cs : Str)
    (h : colonSpacedQuote (':' :: cs) = true) :
    ∃ cs2 : Str, cs = ' ' :: '"' :: cs2 := by
  have h2 := h
  simp only [colonSpacedQuote, if_pos, Bool.and_eq_true] at h2
  obtain ⟨hm, _⟩ := h2
  cases cs with
  | nil => simp at hm
  | cons d ds =>
    cases ds with
    | nil =>
      by_cases hd : d = ' ' <;> simp [hd] at hm
    | cons e es =>
      by_cases hd : d = ' '
      · by_cases he : e = '"'
        · exact ⟨es, by rw [hd, he]⟩
        · subst hd
          exfalso
          revert hm
          cases e with
          | mk v hv =>
            intro hm
            exact he (by
              have := hm
              by_contra hne
              simp_all [show (⟨v, hv⟩ : Char) ≠ '"' from he])
      · exfalso
        revert hm
        cases d with
        | mk v hv =>
          intro hm
          exact hd (by
            by_contra hne
            simp_all [show (⟨v, hv⟩ : Char) ≠ ' ' from hd])

/-- Repair rule 3 leaves a `colonSpacedQuote` string unchanged. -/
theorem quoteVals_id :
    ∀ (fuel : Nat) (s : Str), colonSpacedQuote s = true → quoteVals fuel s = s := by
  intro fuel
  induction fuel with
  | zero => intro s _; rfl
  | succ n ih =>
    intro s h
    cases s with
    | nil => rfl
    | cons c cs =>
      by_cases hc : c = ':'
      · subst hc
        obtain ⟨cs2, hcs⟩ := colonSpacedQuote_head cs h
        subst hcs
        have e1 : isWs ' ' = true := rfl
        have e2 : isWs '"' = false := rfl
        have e3 : wordChar '"' = false := rfl
        simp only [quoteVals, if_pos, List.dropWhile, List.takeWhile, e1, e2, e3,
          List.isEmpty_nil, Bool.not_true, Bool.false_and, Bool.false_eq_true, if_neg,
          not_false_iff]
        rw [ih _ (colonSpacedQuote_tail ':' _ h)]
      · simp only [quoteVals, hc, if_neg, not_false_iff]
        rw [ih cs (colonSpacedQuote_tail c cs h)]

/-- Repair rule 4 leaves a `colonSpacedQuote` string unchanged. -/
theorem quoteLast_id :
    ∀ (fuel : Nat) (s : Str), colonSpacedQuote s = true → quoteLast fuel s = s := by
  intro fuel
  induction fuel with
  | zero => intro s _; rfl
  | succ n ih =>
    intro s h
    cases s with
    | nil => rfl
    | cons c cs =>
      by_cases hc : c = ':'
      · subst hc
        obtain ⟨cs2, hcs⟩ := colonSpacedQuote_head cs h
        subst hcs
        have e1 : isWs ' ' = true := rfl
        have e2 : isWs '"' = false := rfl
        have e3 : wordChar '"' = false := rfl
        simp only [quoteLast, if_pos, List.dropWhile, List.takeWhile, e1, e2, e3,
          List.isEmpty_nil, Bool.not_true, Bool.false_and, Bool.false_eq_true, if_neg,
          not_false_iff]
        rw [ih _ (colonSpacedQuote_tail ':' _ h)]
      · simp only [quoteLast, hc, if_neg, not_false_iff]
        rw [ih cs (colonSpacedQuote_tail c cs h)]

/-- `replaceAll` is the identity when the (nonempty) pattern does not
occur. -/
theorem replaceAll_no_occur (sub repl : Str) (hsub : sub ≠ []) :
    ∀ (fuel : Nat) (s : Str), hasSub s sub = false → replaceAll sub repl fuel s = s := by
  intro fuel
  induction fuel with
  | zero => intro s _; rfl
  | succ n ih =>
    intro s hsubF
    cases s with
    | nil => simp [replaceAll, leadsWith_nil sub hsub]
    | cons c cs =>
      have hlead : leadsWith sub (c :: cs) = false := by
        cases hl : leadsWith sub (c :: cs) with
        | false => rfl
        | true => simp [hasSub, hl] at hsubF
      have hrest : hasSub cs sub = false := by
        cases hr : hasSub cs sub with
        | false => rfl
        | true => simp [hasSub, hr] at hsubF
      simp only [replaceAll, hlead, Bool.false_and, Bool.false_eq_true, if_neg,
        not_false_iff]
      rw [ih cs hrest]

/-- `pyReplace` is the identity when the pattern does not occur. -/
theorem pyReplace_no_occur (s sub repl : Str) (hsub : sub ≠ [])
    (h : hasSub s sub = false) : pyReplace s sub repl = s :=
  replaceAll_no_occur sub repl hsub (s.length + 1) s h

/-- The whole repair pipeline is the identity on strings with no
`<escape>` token, no word character directly before a colon, and a
space-quote after every colon. -/
theorem repair_json_id (s : Str) (h0 : hasSub s escapeTok = false)
    (h1 : noWordColon s = true) (h2 : colonSpacedQuote s = true) :
    repair_json s = s := by
  have k1 : quoteKeys (s.length + 1) s = s := quoteKeys_id _ s h1
  have k2 : quoteVals (s.length + 1) s = s := quoteVals_id _ s h2
  have k3 : quoteLast (s.length + 1) s = s := quoteLast_id _ s h2
  unfold repair_json
  rw [pyReplace_no_occur s escapeTok [] (by decide) h0]
  simp only [k1, k2, k3]

/-- The already-valid JSON text `{"a": 1}` with a bare numeric value. -/
def validNumJson : Str := "\x7b\"a\": 1\x7d".data

/-- C3 counterexample: `{"a": 1}` is valid JSON, yet repair rule 3
quotes the bare `1`, and the repaired text parses to the string value
`"1"` — a different mapping than the number `1`.  Repair therefore does
change the parsed value of some already-valid JSON. -/
theorem C3_counterexample :
    pyJsonLoads validNumJson = some (JVal.jobj [("a", JVal.jnum 1)]) ∧
    pyJsonLoads (repair_json validNumJson) = some (JVal.jobj [("a", JVal.jstr "1")]) ∧
    (JVal.jobj [("a", JVal.jnum 1)] : JVal) ≠ JVal.jobj [("a", JVal.jstr "1")] := by
  refine ⟨rfl, rfl, ?_⟩
  intro h
  simp at h

/-- C3 (amended): repair does not change the parsed value of valid JSON
text in the guarded class — no `<escape>` occurrence, no word character
directly before a colon (keys are quoted), and a space-plus-quote after
every colon (all scalar values are quoted strings) — because on that
class the whole pipeline is the identity. -/
theorem C3_repair_preserves (s : Str) (v : JVal)
    (hvalid : pyJsonLoads s = some v)
    (h0 : hasSub s escapeTok = false)
    (h1 : noWordColon s = true)
    (h2 : colonSpacedQuote s = true) :
    repair_json s = s ∧ pyJsonLoads (repair_json s) = some v := by
  have hid := repair_json_id s h0 h1 h2
  exact ⟨hid, by rw [hid]; exact hvalid⟩

/-- Witness for C3 at the valid JSON text `{"a": "b"}`. -/
theorem C3_repair_preserves_witness :
    repair_json "\x7b\"a\": \"b\"\x7d".data = "\x7b\"a\": \"b\"\x7d".data ∧
    pyJsonLoads (repair_json "\x7b\"a\": \"b\"\x7d".data) =
      some (JVal.jobj [("a", JVal.jstr "b")]) :=
  C3_repair_preserves "\x7b\"a\": \"b\"\x7d".data (JVal.jobj [("a", JVal.jstr "b")])
    rfl (by decide) (by decide) (by decide)

/-- A raw text whose extracted arguments `{id: prod}` fail the strict
parse but are recovered by the repair retry. -/
def rawRepairable : Str :=
  "<start_function_call>call:get_status\x7bid: prod\x7d<end_function_call>".data

/-- C4 counterexample: on `rawRepairable` the strict parse of the
arguments fails, the repair retry succeeds — and `invalid_json` is
nevertheless emitted (once), because the source records the failure
before attempting the repair.  The claim that the signal fires only
when the retry also fails is therefore false. -/
theorem C4_counterexample :
    pyJsonLoads "\x7bid: prod\x7d".data = none ∧
    (pyJsonLoads (repair_json "\x7bid: prod\x7d".data)).isSome = true ∧
    (parse_output rawRepairable ["get_status"]).2 = [Sig.invalidJson] ∧
    countSig Sig.invalidJson (parse_output rawRepairable ["get_status"]).2 = 1 :=
  ⟨rfl, rfl, rfl, rfl⟩

/-- C4 (amended): whenever the raw text carries the start sentinel and
the clean call splits at an opening brace, the number of `invalid_json`
emissions is 0 when the strict parse succeeds, 1 when only the repair
retry succeeds, and 2 when both fail; in the unrecoverable double
failure the parse returns `(None, None)`. -/
theorem C4_invalid_json_emissions (text : Str) (tools : List String) (fn rest : Str)
    (hstart : hasSub text startTok = true)
    (hsplit : splitOnceAt (cleanCallOf text) braceTok = some (fn, rest)) :
    countSig Sig.invalidJson (parse_output text tools).2 =
      (if (pyJsonLoads ('\x7b' :: rest)).isSome then 0
       else if (pyJsonLoads (repair_json ('\x7b' :: rest))).isSome then 1 else 2) ∧
    ((pyJsonLoads ('\x7b' :: rest) = none ∧
        pyJsonLoads (repair_json ('\x7b' :: rest)) = none) →
      (parse_output text tools).1 = (none, none)) := by
  have hbrace : hasSub (cleanCallOf text) braceTok = true :=
    splitOnceAt_some_hasSub _ _ _ hsplit
  unfold parse_output
  simp only [hstart, hbrace, hsplit, if_pos]
  cases hstrict : pyJsonLoads ('\x7b' :: rest) with
  | some v =>
    by_cases hc : (String.mk (pyStrip fn)) ∈ tools
    · simp [hc, countSig, hstrict]
    · simp [hc, countSig, hstrict]
  | none =>
    cases hrep : pyJsonLoads (repair_json ('\x7b' :: rest)) with
    | some v => simp [countSig, hstrict, hrep]
    | none => simp [countSig, hstrict, hrep]

/-- Witness for the amended C4 at the repairable input: one emission. -/
theorem C4_invalid_json_emissions_witness :
    countSig Sig.invalidJson (parse_output rawRepairable ["get_status"]).2 =
      (if (pyJsonLoads ('\x7b' :: "id: prod\x7d".data)).isSome then 0
       else if (pyJsonLoads (repair_json ('\x7b' :: "id: prod\x7d".data))).isSome then 1 else 2) :=
  (C4_invalid_json_emissions rawRepairable ["get_status"] "get_status".data "id: prod\x7d".data
    (by decide) (by decide)).1

/-- C9: on the repair path (strict parse failed, repaired parse
succeeded) `parse_output` returns the parsed pair with only the
`invalid_json` emission — the available-tools membership check is never
reached, so no `unknown_tool` signal fires there even for a name that is
not an available tool; conversely, any `unknown_tool` emission can only
arise on the strict-parse success path with a name outside the tool
list. -/
theorem C9_unknown_tool_only_strict :
    (∀ (text : Str) (tools : List String) (fn rest : Str) (v : JVal),
      hasSub text startTok = true →
      splitOnceAt (cleanCallOf text) braceTok = some (fn, rest) →
      pyJsonLoads ('\x7b' :: rest) = none →
      pyJsonLoads (repair_json ('\x7b' :: rest)) = some v →
      parse_output text tools = ((some (String.mk (pyStrip fn)), some v), [Sig.invalidJson])) ∧
    (∀ (text : Str) (tools : List String),
      Sig.unknownTool ∈ (parse_output text tools).2 →
      ∃ fn rest v, splitOnceAt (cleanCallOf text) braceTok = some (fn, rest) ∧
        pyJsonLoads ('\x7b' :: rest) = some v ∧
        tools.contains (String.mk (pyStrip fn)) = false) := by
  constructor
  · intro text tools fn rest v hstart hsplit hstrict hrep
    have hbrace : hasSub (cleanCallOf text) braceTok = true :=
      splitOnceAt_some_hasSub _ _ _ hsplit
    simp only [parse_output, hstart, hbrace, hsplit, if_pos, hstrict, hrep]
  · intro text tools hmem
    by_cases hstart : hasSub text startTok = true
    · by_cases hbrace : hasSub (cleanCallOf text) braceTok = true
      · cases hsp : splitOnceAt (cleanCallOf text) braceTok with
        | none =>
          simp only [parse_output, hstart, hbrace, hsp, if_pos] at hmem
          simp at hmem
        | some pr =>
          obtain ⟨fn, rest⟩ := pr
          cases hstrict : pyJsonLoads ('\x7b' :: rest) with
          | some v =>
            by_cases hc : tools.contains (String.mk (pyStrip fn)) = true
            · simp only [parse_output, hstart, hbrace, hsp, if_pos, hstrict, hc] at hmem
              simp at hmem
            · have hcF : tools.contains (String.mk (pyStrip fn)) = false := by
                cases hx : tools.contains (String.mk (pyStrip fn)) with
                | false => rfl
                | true => exact absurd hx hc
              exact ⟨fn, rest, v, rfl, hstrict, hcF⟩
          | none =>
            cases hrep : pyJsonLoads (repair_json ('\x7b' :: rest)) with
            | some v =>
              simp only [parse_output, hstart, hbrace, hsp, if_pos, hstrict, hrep] at hmem
              simp at hmem
            | none =>
              simp only [parse_output, hstart, hbrace, hsp, if_pos, hstrict, hrep] at hmem
              simp at hmem
      · have hbF : hasSub (cleanCallOf text) braceTok = false := by
          cases hx : hasSub (cleanCallOf text) braceTok with
          | false => rfl
          | true => exact absurd hx hbrace
        simp only [parse_output, hstart, hbF, if_pos] at hmem
        simp at hmem
    · have hsF : hasSub text startTok = false := by
        cases hx : hasSub text startTok with
        | false => rfl
        | true => exact absurd hx hstart
      simp only [parse_output, hsF] at hmem
      simp at hmem

/-- Witness for C9: with an empty available-tool list, the repairable
input still returns its parsed pair with only the `invalid_json`
emission — no `unknown_tool`. -/
theorem C9_unknown_tool_only_strict_witness :
    parse_output rawRepairable [] =
      ((some "get_status", some (JVal.jobj [("id", JVal.jstr "prod")])), [Sig.invalidJson]) :=
  C9_unknown_tool_only_strict.1 rawRepairable [] "get_status".data "id: prod\x7d".data
    (JVal.jobj [("id", JVal.jstr "prod")]) (by decide) (by decide) rfl rfl

/-! ## Loop lemmas (C1, C2, C5, C6) -/

/-- `parse_output` emits only `invalid_json` and `unknown_tool`
signals, never `infinite_loop`. -/
theorem parse_output_no_inf (text : Str) (tools : List String) :
    countSig Sig.infiniteLoop (parse_output text tools).2 = 0 := by
  by_cases hstart : hasSub text startTok = true
  · by_cases hbrace : hasSub (cleanCallOf text) braceTok = true
    · cases hsp : splitOnceAt (cleanCallOf text) braceTok with
      | none => simp [parse_output, hstart, hbrace, hsp, countSig]
      | some pr =>
        obtain ⟨fn, rest⟩ := pr
        cases hstrict : pyJsonLoads ('\x7b' :: rest) with
        | some v =>
          by_cases hc : (String.mk (pyStrip fn)) ∈ tools
          · simp [parse_output, hstart, hbrace, hsp, hstrict, hc, countSig]
          · simp [parse_output, hstart, hbrace, hsp, hstrict, hc, countSig]
        | none =>
          cases hrep : pyJsonLoads (repair_json ('\x7b' :: rest)) with
          | some v => simp [parse_output, hstart, hbrace, hsp, hstrict, hrep, countSig]
          | none => simp [parse_output, hstart, hbrace, hsp, hstrict, hrep, countSig]
    · have hbF : hasSub (cleanCallOf text) braceTok = false := by
        cases hx : hasSub (cleanCallOf text) braceTok with
        | false => rfl
        | true => exact absurd hx hbrace
      simp [parse_output, hstart, hbF, countSig]
  · have hsF : hasSub text startTok = false := by
      cases hx : hasSub text startTok with
      | false => rfl
      | true => exact absurd hx hstart
    simp [parse_output, hsF, countSig]

/-- An action emits no `infinite_loop` signal (its signals all come from
`parse_output`). -/
theorem execute_action_no_inf (env : LoopEnv) (t : String) :
    countSig Sig.infiniteLoop (execute_action env t).sigs = 0 := by
  unfold execute_action
  by_cases ha : should_answer t = true
  · simp [ha, countSig]
  · have haF : should_answer t = false := by
      cases hx : should_answer t with
      | false => rfl
      | true => exact absurd hx ha
    have hps := parse_output_no_inf t.data env.tools
    cases hp : parse_output t.data env.tools with
    | mk res sigs =>
      rw [hp] at hps
      obtain ⟨fn, fa⟩ := res
      cases fn with
      | none => simpa [haF, hp] using hps
      | some n =>
        cases fa with
        | none => simpa [haF, hp] using hps
        | some v =>
          by_cases hn : n = ""
          · simpa [haF, hp, hn] using hps
          · cases he : env.execTool n v with
            | ok r => simpa [haF, hp, hn, he] using hps
            | error e => simpa [haF, hp, hn, he] using hps

/-- The loop accumulates no `infinite_loop` signal beyond what it
started with. -/
theorem react_loop_aux_no_inf (env : LoopEnv) :
    ∀ (rem step : Nat) (ctx : String) (sigs : List Sig) (execs : List (String × JVal)),
      countSig Sig.infiniteLoop (react_loop_aux env rem step ctx sigs execs).sigs =
        countSig Sig.infiniteLoop sigs := by
  intro rem
  induction rem with
  | zero => intro step ctx sigs execs; rfl
  | succ n ih =>
    intro step ctx sigs execs
    by_cases ha : (execute_action env (env.gen step ctx)).isAnswer = true
    · simp [react_loop_aux, ha, countSig_append, execute_action_no_inf]
    · have haF : (execute_action env (env.gen step ctx)).isAnswer = false := by
        cases hx : (execute_action env (env.gen step ctx)).isAnswer with
        | false => rfl
        | true => exact absurd hx ha
      simp [react_loop_aux, haF, ih, countSig_append, execute_action_no_inf]

/-- The number of THINK iterations never falls below the starting step
index. -/
theorem react_loop_aux_steps_ge (env : LoopEnv) :
    ∀ (rem step : Nat) (ctx : String) (sigs : List Sig) (execs : List (String × JVal)),
      step ≤ (react_loop_aux env rem step ctx sigs execs).steps_taken := by
  intro rem
  induction rem with
  | zero => intro step ctx sigs execs; exact Nat.le_refl _
  | succ n ih =>
    intro step ctx sigs execs
    by_cases ha : (execute_action env (env.gen step ctx)).isAnswer = true
    · simp [react_loop_aux, ha]
    · have haF : (execute_action env (env.gen step ctx)).isAnswer = false := by
        cases hx : (execute_action env (env.gen step ctx)).isAnswer with
        | false => rfl
        | true => exact absurd hx ha
      simp only [react_loop_aux, haF, Bool.false_eq_true, if_neg, not_false_iff]
      exact Nat.le_trans (Nat.le_succ step) (ih (step + 1) _ _ _)

/-- The number of THINK iterations is bounded by the remaining budget. -/
theorem react_loop_aux_steps_le (env : LoopEnv) :
    ∀ (rem step : Nat) (ctx : String) (sigs : List Sig) (execs : List (String × JVal)),
      (react_loop_aux env rem step ctx sigs execs).steps_taken ≤ step + rem := by
  intro rem
  induction rem with
  | zero => intro step ctx sigs execs; exact Nat.le_refl _
  | succ n ih =>
    intro step ctx sigs execs
    by_cases ha : (execute_action env (env.gen step ctx)).isAnswer = true
    · simp only [react_loop_aux, ha, if_pos]
      omega
    · have haF : (execute_action env (env.gen step ctx)).isAnswer = false := by
        cases hx : (execute_action env (env.gen step ctx)).isAnswer with
        | false => rfl
        | true => exact absurd hx ha
      simp only [react_loop_aux, haF, Bool.false_eq_true, if_neg, not_false_iff]
      have := ih (step + 1)
        (update_context ctx (env.gen step ctx) (execute_action env (env.gen step ctx)).observation)
        (sigs ++ (execute_action env (env.gen step ctx)).sigs)
        (execs ++ (execute_action env (env.gen step ctx)).execs)
      omega

/-- With at least one iteration of budget, at least one THINK iteration
runs. -/
theorem react_loop_aux_steps_pos (env : LoopEnv) (rem step : Nat) (ctx : String)
    (sigs : List Sig) (execs : List (String × JVal)) (h : 1 ≤ rem) :
    step + 1 ≤ (react_loop_aux env rem step ctx sigs execs).steps_taken := by
  cases rem with
  | zero => omega
  | succ n =>
    by_cases ha : (execute_action env (env.gen step ctx)).isAnswer = true
    · simp [react_loop_aux, ha]
    · have haF : (execute_action env (env.gen step ctx)).isAnswer = false := by
        cases hx : (execute_action env (env.gen step ctx)).isAnswer with
        | false => rfl
        | true => exact absurd hx ha
      simp only [react_loop_aux, haF, Bool.false_eq_true, if_neg, not_false_iff]
      exact react_loop_aux_steps_ge env n (step + 1) _ _ _

/-- C6: for every generator behaviour and every positive step budget the
ReAct loop terminates with a defined result whose `steps_taken` count of
THINK iterations lies between 1 and `max_steps`. -/
theorem C6_loop_bounded (env : LoopEnv) (max_steps : Nat) (q : String)
    (h : 0 < max_steps) :
    ∃ out, react_reasoning_loop env max_steps q = some out ∧
      1 ≤ out.steps_taken ∧ out.steps_taken ≤ max_steps := by
  have hne : max_steps ≠ 0 := by omega
  refine ⟨react_loop_aux env max_steps 0 q [] [], by simp [react_reasoning_loop, hne], ?_, ?_⟩
  · simpa using react_loop_aux_steps_pos env max_steps 0 q [] [] h
  · simpa using react_loop_aux_steps_le env max_steps 0 q [] []

/-- A generator that always answers plain text without indicators or
sentinels. -/
def plainEnv : LoopEnv :=
  { gen := fun _ _ => "hello world",
    tools := ["get_status"],
    execTool := fun _ _ => Except.ok [] }

/-- Witness for C6 at a concrete environment and budget. -/
theorem C6_loop_bounded_witness :
    ∃ out, react_reasoning_loop plainEnv 2 "query" = some out ∧
      1 ≤ out.steps_taken ∧ out.steps_taken ≤ 2 :=
  C6_loop_bounded plainEnv 2 "query" (by decide)

/-- A generator that emits the identical well-formed tool call on every
step. -/
def repeatEnv : LoopEnv :=
  { gen := fun _ _ =>
      "<start_function_call>call:get_status\x7b\"id\": \"prod\"\x7d<end_function_call>",
    tools := ["get_status"],
    execTool := fun _ _ => Except.ok [("status", JVal.jstr "healthy")] }

/-- C1: the code never emits an `infinite_loop` signal.  The ReAct loop
keeps no signature history at all (its only signals come from the
parser), and `process_request` rebuilds `tool_call_history` as an empty
list on every request and appends at most one signature to it before
counting, so the `count >= 3` branch is unreachable.  Concretely, a
session whose generator emits the identical tool call on 3 consecutive
steps executes the tool 3 times (execution is indeed not suppressed)
and emits zero `infinite_loop` signals, where the claim demands exactly
one. -/
theorem C1_infinite_loop_never_fires :
    (∀ (env : LoopEnv) (ms : Nat) (q : String) (out : LoopOut),
      react_reasoning_loop env ms q = some out →
      countSig Sig.infiniteLoop out.sigs = 0) ∧
    (∀ (generated : Str) (tools : List String),
      countSig Sig.infiniteLoop (process_request_drift generated tools).1 = 0) ∧
    (react_reasoning_loop repeatEnv 3 "check prod").map
        (fun o => (o.execs, countSig Sig.infiniteLoop o.sigs)) =
      some ([("get_status", JVal.jobj [("id", JVal.jstr "prod")]),
             ("get_status", JVal.jobj [("id", JVal.jstr "prod")]),
             ("get_status", JVal.jobj [("id", JVal.jstr "prod")])], 0) := by
  refine ⟨?_, ?_, ?_⟩
  · intro env ms q out hout
    unfold react_reasoning_loop at hout
    by_cases hms : ms = 0
    · simp [hms] at hout
    · simp only [hms, if_neg, not_false_iff, Option.some.injEq] at hout
      rw [← hout]
      simpa using react_loop_aux_no_inf env ms 0 q [] []
  · intro generated tools
    have hps := parse_output_no_inf generated tools
    cases hp : parse_output generated tools with
    | mk res psigs =>
      rw [hp] at hps
      obtain ⟨fn, fa⟩ := res
      cases fn with
      | none => simpa [process_request_drift, hp] using hps
      | some n =>
        cases fa with
        | none => simpa [process_request_drift, hp] using hps
        | some v =>
          by_cases hn : n = ""
          · simpa [process_request_drift, hp, hn] using hps
          · have hcount : countSignature (tool_signature n v) [tool_signature n v] = 1 := by
              simp [countSignature]
            have hlt : ¬ 3 ≤ countSignature (tool_signature n v) [tool_signature n v] := by
              rw [hcount]; omega
            simpa [process_request_drift, hp, hn, hlt, countSig_append, countSig] using hps
  · rfl

/-- A generator that answers with the capitalised marker on step 1. -/
def finalAnswerEnv : LoopEnv :=
  { gen := fun _ _ => "Final answer: cluster healthy",
    tools := ["get_status"],
    execTool := fun _ _ => Except.ok [] }

/-- C2: on the generator output `Final answer: cluster healthy` the
loop does end at step 1 with `steps_taken = 1`, but the response is the
whole thought, marker included: `_extract_answer` checks for the marker
on the lowercased thought yet splits the original thought at the
lowercase literal `"final answer:"`, which does not occur in the
capitalised text, so nothing is stripped and the claimed response
`cluster healthy` is not produced. -/
theorem C2_final_answer_marker_kept :
    (react_reasoning_loop finalAnswerEnv 5 "query").map
        (fun o => (o.response, o.steps_taken)) =
      some ("Final answer: cluster healthy", 1) ∧
    should_answer "Final answer: cluster healthy" = true ∧
    containsS (pyLowerS "Final answer: cluster healthy") "final answer:" = true ∧
    extract_answer "Final answer: cluster healthy" = "Final answer: cluster healthy" ∧
    "Final answer: cluster healthy" ≠ "cluster healthy" :=
  ⟨rfl, rfl, rfl, rfl, by decide⟩

/-- C5 counterexample: with `max_steps = 2` and a generator that never
produces an answer indicator nor any sentinel, the loop does not run 2
steps to a fallback — the parse miss makes the thought itself the final
answer, ending the session at step 1 with the thought as response. -/
theorem C5_counterexample :
    should_answer "hello world" = false ∧
    hasSub "hello world".data startTok = false ∧
    (react_reasoning_loop plainEnv 2 "query").map
        (fun o => (o.response, o.steps_taken, o.completed)) =
      some ("hello world", 1, true) :=
  ⟨rfl, by decide, rfl⟩

/-- An action on a thought that parses to a nonempty tool name takes the
tool branch. -/
theorem execute_action_tool_branch (env : LoopEnv) (t : String)
    (h1 : should_answer t = false)
    (h2 : ∃ n v sigs, parse_output t.data env.tools = ((some n, some v), sigs) ∧ n ≠ "") :
    (execute_action env t).isAnswer = false := by
  obtain ⟨n, v, sigs, hp, hn⟩ := h2
  unfold execute_action
  simp only [h1, Bool.false_eq_true, if_neg, not_false_iff, hp, hn]
  cases env.execTool n v <;> rfl

/-- One non-answering pass of the loop recurses with the updated
context and accumulators. -/
theorem react_loop_aux_step (env : LoopEnv) (rem step : Nat) (ctx : String)
    (sigs : List Sig) (execs : List (String × JVal))
    (h : (execute_action env (env.gen step ctx)).isAnswer = false) :
    react_loop_aux env (rem + 1) step ctx sigs execs =
      react_loop_aux env rem (step + 1)
        (update_context ctx (env.gen step ctx)
          (execute_action env (env.gen step ctx)).observation)
        (sigs ++ (execute_action env (env.gen step ctx)).sigs)
        (execs ++ (execute_action env (env.gen step ctx)).execs) := by
  simp only [react_loop_aux, h, Bool.false_eq_true, if_neg, not_false_iff]

/-- C5 (amended): with `max_steps = 2` and a generator that never
produces an answer-indicator thought but always a parseable tool call,
the loop runs both steps and terminates by budget exhaustion with the
deterministic fallback response built from the accumulated context. -/
theorem C5_fallback_after_budget (env : LoopEnv) (q : String)
    (h1 : ∀ (i : Nat) (c : String), should_answer (env.gen i c) = false)
    (h2 : ∀ (i : Nat) (c : String), ∃ n v sigs,
      parse_output (env.gen i c).data env.tools = ((some n, some v), sigs) ∧ n ≠ "") :
    ∃ out, react_reasoning_loop env 2 q = some out ∧
      out.steps_taken = 2 ∧ out.completed = false ∧
      out.response = generate_fallback_response out.finalCtx := by
  refine ⟨react_loop_aux env 2 0 q [] [], rfl, ?_⟩
  rw [show (2 : Nat) = 1 + 1 from rfl,
    react_loop_aux_step env 1 0 q [] []
      (execute_action_tool_branch env (env.gen 0 q) (h1 0 q) (h2 0 q))]
  rw [show (1 : Nat) = 0 + 1 from rfl,
    react_loop_aux_step env 0 1 _ _ _
      (execute_action_tool_branch env _ (h1 1 _) (h2 1 _))]
  exact ⟨rfl, rfl, rfl⟩

/-- Witness for the amended C5 at the repeating tool-call generator. -/
theorem C5_fallback_after_budget_witness :
    ∃ out, react_reasoning_loop repeatEnv 2 "check prod" = some out ∧
      out.steps_taken = 2 ∧ out.completed = false ∧
      out.response = generate_fallback_response out.finalCtx :=
  C5_fallback_after_budget repeatEnv "check prod"
    (fun _ _ => (by decide :
      should_answer
        "<start_function_call>call:get_status\x7b\"id\": \"prod\"\x7d<end_function_call>" = false))
    (fun _ _ => ⟨"get_status", JVal.jobj [("id", JVal.jstr "prod")], [], rfl, by decide⟩)

end FG
